import Mathlib

/-!
Shallow embedding of the sales-report analyzer (analysis.py).

Strings are modelled as lists of characters; Python floats are modelled as
exact rationals; a fallible Python expression is modelled with Option, a
value of none standing for the exception the real code would raise at that
point.  The file first embeds the helper string operations the code relies
on (strip, split, the regex cleanups, int() and float() on decimal
literals), then parse_gains_list and analyze_sales, and finally states and
proves the claims about them.
-/

set_option maxRecDepth 4000
set_option maxHeartbeats 1000000

/-- The characters of a string literal, used to write concrete inputs. -/
def chars (s : String) : List Char := s.data

/-- ASCII whitespace, the model of the whitespace class used by strip()
and by the regex split. -/
def isWs (c : Char) : Bool :=
  c = ' ' ∨ c = '\t' ∨ c = '\n' ∨ c = '\r' ∨ c = '\x0b' ∨ c = '\x0c'

/-- Model of the Python str.strip method: drop leading and trailing
whitespace. -/
def trim (s : List Char) : List Char :=
  ((s.dropWhile isWs).reverse.dropWhile isWs).reverse

/-- Split a list of characters on every occurrence of the character sep,
the model of str.split with a one-character separator (as used for the
hyphen, the comma and the colon). -/
def splitChar (sep : Char) : List Char → List (List Char)
  | [] => [[]]
  | c :: rest =>
    let r := splitChar sep rest
    if c = sep then [] :: r
    else match r with
      | [] => [[c]]
      | p :: ps => (c :: p) :: ps

/-- Model of re.split with the pattern of two or more whitespace
characters and maxsplit one: the part before the first run of two or more
whitespace characters, and, when such a run exists, the part after that
maximal run. -/
def splitWs2 : List Char → List Char × Option (List Char)
  | [] => ([], none)
  | [c] => ([c], none)
  | a :: b :: rest =>
    if isWs a ∧ isWs b then ([], some ((a :: b :: rest).dropWhile isWs))
    else
      let (p, r) := splitWs2 (b :: rest)
      (a :: p, r)

/-- The value of a list of decimal digit characters, most significant
first. -/
def digitsToNat (s : List Char) : Nat :=
  s.foldl (fun acc c => acc * 10 + (c.toNat - 48)) 0

/-- Model of the Python int() conversion on the strings that occur here:
optional surrounding whitespace, an optional sign, then at least one
decimal digit.  A value of none stands for the ValueError int() raises. -/
def parseInt (s : List Char) : Option Int :=
  let t := trim s
  match t with
  | '-' :: rest =>
    if rest ≠ [] ∧ rest.all Char.isDigit then some (-(digitsToNat rest : Int)) else none
  | '+' :: rest =>
    if rest ≠ [] ∧ rest.all Char.isDigit then some (digitsToNat rest : Int) else none
  | _ =>
    if t ≠ [] ∧ t.all Char.isDigit then some (digitsToNat t : Int) else none

/-- The optional exponent tail of a float literal: empty, or e / E followed
by an optionally signed run of digits. -/
def expTail (v : ℚ) : List Char → Option ℚ
  | [] => some v
  | '-' :: ds => if ds ≠ [] ∧ ds.all Char.isDigit then some (v / 10 ^ digitsToNat ds) else none
  | '+' :: ds => if ds ≠ [] ∧ ds.all Char.isDigit then some (v * 10 ^ digitsToNat ds) else none
  | ds => if ds ≠ [] ∧ ds.all Char.isDigit then some (v * 10 ^ digitsToNat ds) else none

/-- After the mantissa: either the end of the string or an exponent marker
with its tail. -/
def afterMantissa (v : ℚ) : List Char → Option ℚ
  | [] => some v
  | 'e' :: rest => expTail v rest
  | 'E' :: rest => expTail v rest
  | _ => none

/-- An unsigned float literal: a run of digits, optionally a decimal point
and a second run of digits (at least one digit in the mantissa overall),
optionally an exponent. -/
def parseUFloat (s : List Char) : Option ℚ :=
  let ip := s.takeWhile Char.isDigit
  let rest1 := s.dropWhile Char.isDigit
  match rest1 with
  | '.' :: rest2 =>
    let fp := rest2.takeWhile Char.isDigit
    let rest3 := rest2.dropWhile Char.isDigit
    if ip = [] ∧ fp = [] then none
    else afterMantissa ((digitsToNat ip : ℚ) + (digitsToNat fp : ℚ) / 10 ^ fp.length) rest3
  | _ =>
    if ip = [] then none
    else afterMantissa (digitsToNat ip : ℚ) rest1

/-- Model of the Python float() conversion on decimal literals: optional
surrounding whitespace, optional sign, then an unsigned float literal.
A value of none stands for the ValueError float() raises. -/
def parseFloat (s : List Char) : Option ℚ :=
  let t := trim s
  match t with
  | '-' :: rest => (parseUFloat rest).map (fun v => -v)
  | '+' :: rest => parseUFloat rest
  | _ => parseUFloat t

/-- Model of re.sub removing every character other than a decimal digit or
the decimal point, as applied to the raw price and gain cells. -/
def stripNonNumeric (s : List Char) : List Char :=
  s.filter (fun c => c.isDigit || c = '.')

/-- The quantity-cell cleanup: remove double quotes and commas, then
strip. -/
def cleanQuantity (s : List Char) : List Char :=
  trim (s.filter (fun c => c ≠ '"' ∧ c ≠ ','))

/-- Decimal digits of a natural number, most significant first, with
explicit fuel so that the recursion is structural; the fuel is always
sufficient when it exceeds the number. -/
def natDecimalAux : Nat → Nat → List Char
  | 0, _ => []
  | fuel + 1, n =>
    if n < 10 then [Char.ofNat (48 + n)]
    else natDecimalAux fuel (n / 10) ++ [Char.ofNat (48 + n % 10)]

/-- Decimal digits of a natural number, most significant first, the model
of the Python str() rendering of a non-negative integer. -/
def natDecimal (n : Nat) : List Char := natDecimalAux (n + 1) n

/-- Model of the Python str() rendering of an integer. -/
def intToStr (n : Int) : List Char :=
  if n < 0 then '-' :: natDecimal (-n).toNat else natDecimal n.toNat

/-- Model of the format specifier 02d: the decimal rendering, padded on
the left with a zero when it is shorter than two characters. -/
def pad2 (m : Int) : List Char :=
  let s := intToStr m
  if s.length < 2 then '0' :: s else s

/-- The month key built for a row: the year, a hyphen, the zero-padded
month. -/
def monthKeyOf (year month : Int) : List Char :=
  intToStr year ++ '-' :: pad2 month

/-- Truncation of a rational toward zero, the model of the Python int()
conversion applied to a float. -/
def truncRat (q : ℚ) : Int :=
  if q.num < 0 then -((((-q.num).toNat / q.den : Nat) : Int))
  else (((q.num.toNat / q.den : Nat) : Int))

/-- The gains table: product name to sub-mapping from quantity key to gain,
as insertion-ordered association lists (the model of the Python nested
dicts built by parse_gains_list). -/
abbrev GainsTable := List (List Char × List (List Char × ℚ))

/-- Lookup of a product in the gains table. -/
def lookupProd : GainsTable → List Char → Option (List (List Char × ℚ))
  | [], _ => none
  | (p0, sub0) :: rest, p => if p0 = p then some sub0 else lookupProd rest p

/-- Lookup of a quantity key in a sub-mapping of the gains table. -/
def lookupKey : List (List Char × ℚ) → List Char → Option ℚ
  | [], _ => none
  | (k0, v0) :: rest, k => if k0 = k then some v0 else lookupKey rest k

/-- Assign a value to a quantity key in a sub-mapping, overwriting an
existing entry and otherwise appending. -/
def setKey : List (List Char × ℚ) → List Char → ℚ → List (List Char × ℚ)
  | [], k, v => [(k, v)]
  | (k0, v0) :: rest, k, v =>
    if k0 = k then (k0, v) :: rest else (k0, v0) :: setKey rest k v

/-- The assignment gains_map[product][quantity] = value on the defaultdict
of dicts: a missing product entry is created. -/
def setProdKey : GainsTable → List Char → List Char → ℚ → GainsTable
  | [], p, q, v => [(p, [(q, v)])]
  | (p0, sub0) :: rest, p, q, v =>
    if p0 = p then (p0, setKey sub0 q v) :: rest
    else (p0, sub0) :: setProdKey rest p q v

/-- One candidate rule of a gains line: only processed when it contains a
colon; the split on the colon must give exactly two parts and the gain
token must convert to float, otherwise the rule is dropped (the model of
the ValueError caught per rule). -/
def applyRule (m : GainsTable) (productName rule : List Char) : GainsTable :=
  if ':' ∈ rule then
    match splitChar ':' rule with
    | [q, g] =>
      match parseFloat (trim g) with
      | some v => setProdKey m productName (trim q) v
      | none => m
    | _ => m
  else m

/-- One line of the gains file (lines 9 to 26 of analysis.py): strip it,
skip it when blank, split it on the first run of two or more whitespace
characters into the product name and the rules part, and fold the
comma-separated rules into the table. -/
def parseGainsLine (m : GainsTable) (rawLine : List Char) : GainsTable :=
  let line := trim rawLine
  if line = [] then m
  else
    let productName := trim (splitWs2 line).1
    match (splitWs2 line).2 with
    | some r =>
      if trim r ≠ [] then
        (splitChar ',' (trim r)).foldl (fun acc rule => applyRule acc productName rule) m
      else m
    | none => m

/-- The gains table built from the lines of the gains file. -/
def parseGainsLines (lines : List (List Char)) : GainsTable :=
  lines.foldl parseGainsLine []

/-- Model of parse_gains_list: the input is the list of lines of the file
when it exists and none when it does not; a missing file is reported and
yields none (the absence sentinel). -/
def parseGainsList (fileLines : Option (List (List Char))) : Option GainsTable :=
  match fileLines with
  | none => none
  | some lines => some (parseGainsLines lines)

/-- The profit resolution of lines 71 to 86 of analyze_sales.  A value of
none stands for the uncaught ValueError raised when a non-empty gain
residue does not convert to float, which skips the whole row. -/
def resolveGain (gainsMap : Option GainsTable) (productName quantityStr : List Char)
    (price : ℚ) (gananciaStr : List Char) : Option ℚ :=
  let cleaned := stripNonNumeric gananciaStr
  if cleaned ≠ [] then
    parseFloat cleaned
  else if price = 0 then some 0
  else
    match gainsMap with
    | none => some 0
    | some m =>
      if m = [] then some 0
      else
        match lookupProd m productName with
        | none => some 0
        | some sub =>
          match parseFloat quantityStr with
          | none => some 0
          | some qv =>
            match lookupKey sub (intToStr (truncRat qv)) with
            | some gv => some gv
            | none => some 0

/-- The per-row body of the loop of analyze_sales (lines 49 to 92): a
value of none means the row is skipped (the continue on a short row or
short date, or a ValueError caught by the per-row handler); a value of
some gives the month key, the price and the resolved gain the row
contributes. -/
def processRow (gainsMap : Option GainsTable) (row : List (List Char)) :
    Option (List Char × ℚ × ℚ) :=
  if row.length < 5 then none
  else
    let productName := trim (row.getD 0 [])
    let quantityStr := cleanQuantity (row.getD 1 [])
    let cleanedPrice := stripNonNumeric (row.getD 2 [])
    match (if cleanedPrice = [] then some 0 else parseFloat cleanedPrice : Option ℚ) with
    | none => none
    | some price =>
      let dateParts := splitChar '-' (row.getD 3 [])
      if dateParts.length < 3 then none
      else
        match parseInt (dateParts.getD 0 []) with
        | none => none
        | some year =>
          match parseInt (dateParts.getD 1 []) with
          | none => none
          | some month =>
            match resolveGain gainsMap productName quantityStr price (row.getD 4 []) with
            | none => none
            | some gain => some (monthKeyOf year month, price, gain)

/-- A monthly totals map: month key to accumulated rational, in insertion
order (the model of a defaultdict of floats). -/
abbrev MonthMap := List (List Char × ℚ)

/-- The augmented assignment map[key] += v on a defaultdict of floats. -/
def addToMap : MonthMap → List Char → ℚ → MonthMap
  | [], k, v => [(k, v)]
  | (k0, v0) :: rest, k, v =>
    if k0 = k then (k0, v0 + v) :: rest else (k0, v0) :: addToMap rest k v

/-- Read a key from a monthly totals map with the defaultdict default of
zero. -/
def lookupD : MonthMap → List Char → ℚ
  | [], _ => 0
  | (k0, v0) :: rest, k => if k0 = k then v0 else lookupD rest k

/-- Processing one row against the pair of monthly maps (prices,
earnings): a skipped row leaves the state unchanged, otherwise both maps
are updated under the same month key. -/
def stepRow (gainsMap : Option GainsTable) (s : MonthMap × MonthMap)
    (row : List (List Char)) : MonthMap × MonthMap :=
  match processRow gainsMap row with
  | none => s
  | some (k, p, g) => (addToMap s.1 k p, addToMap s.2 k g)

/-- The whole row loop: fold the rows into the two monthly maps. -/
def aggregate (gainsMap : Option GainsTable) (rows : List (List (List Char))) :
    MonthMap × MonthMap :=
  rows.foldl (stepRow gainsMap) ([], [])

/-- The strict lexicographic comparison of Python strings, by code
point. -/
def strLt : List Char → List Char → Bool
  | [], [] => false
  | [], _ :: _ => true
  | _ :: _, [] => false
  | a :: as, b :: bs => if a < b then true else if b < a then false else strLt as bs

/-- The ordering used by sorted() on the month keys. -/
def keyLt (a b : List Char) : Prop := strLt a b = true

instance : DecidableRel keyLt := fun a b => by unfold keyLt; infer_instance

/-- The fixed calendar-month name table. -/
def meses : List (List Char) :=
  [chars "Enero", chars "Febrero", chars "Marzo", chars "Abril",
   chars "Mayo", chars "Junio", chars "Julio", chars "Agosto",
   chars "Septiembre", chars "Octubre", chars "Noviembre", chars "Diciembre"]

/-- Python list indexing with an integer index: non-negative indices from
the front, negative indices from the back, anything else an IndexError
(none). -/
def pyIndex (l : List (List Char)) (i : Int) : Option (List Char) :=
  if 0 ≤ i ∧ i < (l.length : Int) then l.get? i.toNat
  else if -(l.length : Int) ≤ i ∧ i < 0 then l.get? ((l.length : Int) + i).toNat
  else none

/-- One rendered month block of the report. -/
structure MonthLine where
  year : List Char
  monthName : List Char
  price : ℚ
  gain : ℚ
deriving Repr, DecidableEq

/-- One iteration of the report loop (lines 100 to 110): unpack the month
key on the hyphen into exactly two parts, convert the month part with
int(), index the month name table; none stands for the ValueError or
IndexError that would escape. -/
def renderLine (prices earnings : MonthMap) (k : List Char) : Option MonthLine :=
  match splitChar '-' k with
  | [y, ms] =>
    match parseInt ms with
    | none => none
    | some m =>
      match pyIndex meses (m - 1) with
      | none => none
      | some name => some ⟨y, name, lookupD prices k, lookupD earnings k⟩
  | _ => none

/-- The report loop over the sorted month keys, also accumulating the two
grand totals exactly as the loop does. -/
def reportLoop (prices earnings : MonthMap) : List (List Char) →
    Option (List MonthLine × ℚ × ℚ)
  | [] => some ([], 0, 0)
  | k :: ks =>
    match renderLine prices earnings k with
    | none => none
    | some line =>
      match reportLoop prices earnings ks with
      | none => none
      | some (ls, tp, tg) => some (line :: ls, lookupD prices k + tp, lookupD earnings k + tg)

/-- The outcome of analyze_sales.  fileNotFound is the caught missing-file
case (clean abort, message printed, no report); headerError is the
StopIteration raised by reading the header of an empty file, which no
handler catches; reportError is a ValueError or IndexError escaping from
the report loop; ok carries the rendered month blocks and the two grand
totals. -/
inductive AnalyzeResult where
  | fileNotFound : AnalyzeResult
  | headerError : AnalyzeResult
  | reportError : AnalyzeResult
  | ok : List MonthLine → ℚ → ℚ → AnalyzeResult
deriving Repr, DecidableEq

/-- Whether an outcome is an exception escaping analyze_sales rather than
a clean return. -/
def AnalyzeResult.escapes : AnalyzeResult → Bool
  | .headerError => true
  | .reportError => true
  | _ => false

/-- Model of analyze_sales: the sales input is the list of rows of the
parsed CSV when the file exists (the first row being the header) and none
when it does not. -/
def analyzeSales (salesData : Option (List (List (List Char))))
    (gainsMap : Option GainsTable) : AnalyzeResult :=
  match salesData with
  | none => .fileNotFound
  | some [] => .headerError
  | some (_hdr :: rows) =>
    let s := aggregate gainsMap rows
    let sortedMonths := List.insertionSort keyLt (s.1.map Prod.fst)
    match reportLoop s.1 s.2 sortedMonths with
    | none => .reportError
    | some (ls, tp, tg) => .ok ls tp tg

/-! Helper lemmas: non-negativity of parsed numeric residues, membership
facts for the lookup structures. -/

lemma expTail_nonneg {v w : ℚ} (hv : 0 ≤ v) {s : List Char}
    (h : expTail v s = some w) : 0 ≤ w := by
  unfold expTail at h
  split at h
  · exact (Option.some_inj.mp h) ▸ hv
  · split at h
    · cases h
      positivity
    · cases h
  · split at h
    · cases h
      positivity
    · cases h
  · split at h
    · cases h
      positivity
    · cases h

lemma afterMantissa_nonneg {v w : ℚ} (hv : 0 ≤ v) {s : List Char}
    (h : afterMantissa v s = some w) : 0 ≤ w := by
  unfold afterMantissa at h
  split at h
  · exact (Option.some_inj.mp h) ▸ hv
  · exact expTail_nonneg hv h
  · exact expTail_nonneg hv h
  · cases h

lemma parseUFloat_nonneg {s : List Char} {v : ℚ} (h : parseUFloat s = some v) :
    0 ≤ v := by
  simp only [parseUFloat] at h
  split at h
  · split at h
    · cases h
    · refine afterMantissa_nonneg ?_ h
      positivity
  · split at h
    · cases h
    · refine afterMantissa_nonneg ?_ h
      positivity

lemma mem_trim {c : Char} {s : List Char} (h : c ∈ trim s) : c ∈ s := by
  unfold trim at h
  rw [List.mem_reverse] at h
  have h2 : c ∈ (s.dropWhile isWs).reverse :=
    (List.dropWhile_sublist _).subset h
  rw [List.mem_reverse] at h2
  exact (List.dropWhile_sublist _).subset h2

lemma minus_not_mem_strip (s : List Char) : '-' ∉ stripNonNumeric s := by
  intro h
  simp only [stripNonNumeric, List.mem_filter] at h
  exact absurd h.2 (by decide)

lemma parseFloat_nonneg {s : List Char} {v : ℚ} (hmem : '-' ∉ s)
    (h : parseFloat s = some v) : 0 ≤ v := by
  simp only [parseFloat] at h
  split at h
  case _ rest heq =>
    exact absurd (mem_trim (heq ▸ List.mem_cons_self '-' rest)) hmem
  case _ rest heq =>
    exact parseUFloat_nonneg h
  case _ =>
    exact parseUFloat_nonneg h

lemma parseFloat_strip_nonneg {s : List Char} {v : ℚ}
    (h : parseFloat (stripNonNumeric s) = some v) : 0 ≤ v :=
  parseFloat_nonneg (minus_not_mem_strip s) h

lemma lookupKey_mem {sub : List (List Char × ℚ)} {k : List Char} {v : ℚ}
    (h : lookupKey sub k = some v) : (k, v) ∈ sub := by
  induction sub with
  | nil => cases h
  | cons kv rest ih =>
    obtain ⟨k0, v0⟩ := kv
    simp only [lookupKey] at h
    split at h
    · cases h
      subst_vars
      exact List.mem_cons_self _ _
    · exact List.mem_cons_of_mem _ (ih h)

lemma lookupProd_mem {m : GainsTable} {p : List Char}
    {sub : List (List Char × ℚ)} (h : lookupProd m p = some sub) : (p, sub) ∈ m := by
  induction m with
  | nil => cases h
  | cons e rest ih =>
    obtain ⟨p0, sub0⟩ := e
    simp only [lookupProd] at h
    split at h
    · cases h
      subst_vars
      exact List.mem_cons_self _ _
    · exact List.mem_cons_of_mem _ (ih h)

/-- Whether every gain value stored in the (possibly absent) gains table is
non-negative. -/
def gainsNonneg : Option GainsTable → Bool
  | none => true
  | some m => m.all (fun e => e.2.all (fun kv => decide (0 ≤ kv.2)))

lemma resolveGain_nonneg {g : Option GainsTable} {p q s : List Char} {price v : ℚ}
    (hg : gainsNonneg g = true) (h : resolveGain g p q price s = some v) : 0 ≤ v := by
  simp only [resolveGain] at h
  split at h
  · exact parseFloat_strip_nonneg h
  · split at h
    · cases h
      exact le_refl 0
    · split at h
      · cases h
        exact le_refl 0
      · rename_i m
        split at h
        · cases h
          exact le_refl 0
        · split at h
          · cases h
            exact le_refl 0
          · rename_i sub hsub
            split at h
            · cases h
              exact le_refl 0
            · rename_i qv hqv
              split at h
              · rename_i gv hgv
                cases h
                have hmem := lookupProd_mem hsub
                have hkv := lookupKey_mem hgv
                simp only [gainsNonneg, List.all_eq_true] at hg
                have h1 := hg _ hmem
                simp only [List.all_eq_true] at h1
                simpa using h1 _ hkv
              · cases h
                exact le_refl 0

lemma processRow_bounds {g : Option GainsTable} {row : List (List Char)}
    {k : List Char} {p gn : ℚ} (h : processRow g row = some (k, p, gn)) :
    0 ≤ p ∧ (gainsNonneg g = true → 0 ≤ gn) := by
  simp only [processRow] at h
  split at h
  · cases h
  · split at h
    · cases h
    · rename_i price hprice
      split at h
      · cases h
      · split at h
        · cases h
        · rename_i year hyear
          split at h
          · cases h
          · rename_i month hmonth
            split at h
            · cases h
            · rename_i gain hgain
              cases h
              refine ⟨?_, fun hg => resolveGain_nonneg hg hgain⟩
              split at hprice
              · cases hprice
                exact le_refl 0
              · exact parseFloat_strip_nonneg hprice

lemma lookupD_addToMap (m : MonthMap) (kIns k : List Char) (v : ℚ) :
    lookupD (addToMap m kIns v) k = lookupD m k + (if kIns = k then v else 0) := by
  induction m with
  | nil =>
    simp only [addToMap, lookupD]
    split <;> simp
  | cons e rest ih =>
    obtain ⟨k1, v1⟩ := e
    simp only [addToMap]
    by_cases h1 : k1 = kIns
    · rw [if_pos h1]
      subst h1
      simp only [lookupD]
      by_cases h2 : k1 = k
      · rw [if_pos h2, if_pos h2, if_pos h2]
      · rw [if_neg h2, if_neg h2, if_neg h2]
        simp
    · rw [if_neg h1]
      simp only [lookupD]
      by_cases h2 : k1 = k
      · rw [if_pos h2, if_pos h2]
        have : ¬ kIns = k := fun e => h1 (h2 ▸ e.symm ▸ rfl)
        rw [if_neg this]
        simp
      · rw [if_neg h2, if_neg h2]
        exact ih

/-- C3 (amended): processing one row never decreases any monthly
total_price; it never decreases any monthly total_gain either, provided
every gain stored in the table is non-negative (a negative table gain can
decrease total_gain, see the counterexample). -/
theorem C3_monthly_totals_monotone (g : Option GainsTable)
    (s : MonthMap × MonthMap) (row : List (List Char)) (k : List Char) :
    lookupD s.1 k ≤ lookupD (stepRow g s row).1 k ∧
    (gainsNonneg g = true → lookupD s.2 k ≤ lookupD (stepRow g s row).2 k) := by
  unfold stepRow
  split
  · exact ⟨le_refl _, fun _ => le_refl _⟩
  · rename_i mk p gn hrow
    obtain ⟨hp, hgn⟩ := processRow_bounds hrow
    constructor
    · rw [lookupD_addToMap]
      have hnn : (0:ℚ) ≤ if mk = k then p else 0 := by
        split
        · exact hp
        · exact le_refl 0
      linarith
    · intro hgt
      rw [lookupD_addToMap]
      have hnn : (0:ℚ) ≤ if mk = k then gn else 0 := by
        split
        · exact hgn hgt
        · exact le_refl 0
      linarith

/-- C3 (counterexample): with a table entry carrying the negative gain -3
(the gains-file format allows negative gains), a zero-history month drops
from total_gain 0 to -3 after one row, so MonthlyTotals is decremented. -/
theorem C3_counterexample :
    stepRow (some [(chars "P", [(chars "2", (-3 : ℚ))])]) ([], [])
        [chars "P", chars "2", chars "10", chars "2024-01-05", chars ""]
      = ([(chars "2024-01", 10)], [(chars "2024-01", -3)]) ∧
    lookupD [(chars "2024-01", (-3 : ℚ))] (chars "2024-01") <
      lookupD ([] : MonthMap) (chars "2024-01") := by decide

/-- C5: a rule whose gain token is not numeric, or that is no rule at all,
is dropped individually while its siblings on the same line survive; the
line from the claim yields exactly the stated table. -/
theorem C5_rule_level_tolerance :
    parseGainsLines [chars "Bolsa B  1:5,bad,2:9"]
      = [(chars "Bolsa B", [(chars "1", (5 : ℚ)), (chars "2", 9)])] ∧
    parseGainsLines [chars "Bolsa C  1:5,2:x,3:9"]
      = [(chars "Bolsa C", [(chars "1", (5 : ℚ)), (chars "3", 9)])] := by decide

/-- C10: whenever the explicit-gain branch applies, the effective gain is
the parsed digits-and-dot residue and is non-negative, since stripping
removed any minus sign. -/
theorem C10_explicit_gain_nonneg (g : Option GainsTable) (p q s : List Char)
    (price v : ℚ) (h1 : stripNonNumeric s ≠ [])
    (h2 : parseFloat (stripNonNumeric s) = some v) :
    resolveGain g p q price s = some v ∧ 0 ≤ v := by
  constructor
  · simp only [resolveGain]
    rw [if_pos h1]
    exact h2
  · exact parseFloat_strip_nonneg h2

/-- Witness for C10 at the decorated negative cell of the claim: the raw
gain cell -7.50 resolves to the positive value 7.5. -/
theorem C10_witness :
    resolveGain none (chars "Bolsa A") (chars "2") 10 (chars "-7.50")
      = some (15/2) ∧ (0:ℚ) ≤ 15/2 :=
  C10_explicit_gain_nonneg none (chars "Bolsa A") (chars "2") (chars "-7.50")
    10 (15/2) (by decide)
    (by
      have h0 : parseFloat (stripNonNumeric (chars "-7.50"))
          = some ((7 : ℚ) + 50 / 10 ^ 2) := rfl
      rw [h0]
      norm_num)

/-- C1: the Profit Resolver follows the strict-priority policy, first
matching branch winning: (1) non-empty digits-and-dot residue of the gain
cell wins regardless of price, quantity or table; (2) else price exactly 0
gives 0 without consulting the table; (3) else a present table with the
product and the truncated-quantity key gives that entry; (4) else 0. -/
theorem C1_resolver_policy (g : Option GainsTable) (p q s : List Char) (price : ℚ) :
    (∀ v : ℚ, stripNonNumeric s ≠ [] → parseFloat (stripNonNumeric s) = some v →
      resolveGain g p q price s = some v) ∧
    (stripNonNumeric s = [] → price = 0 → resolveGain g p q price s = some 0) ∧
    (∀ m sub qv gv, stripNonNumeric s = [] → price ≠ 0 → g = some m →
      lookupProd m p = some sub → parseFloat q = some qv →
      lookupKey sub (intToStr (truncRat qv)) = some gv →
      resolveGain g p q price s = some gv) ∧
    (stripNonNumeric s = [] → price ≠ 0 →
      (g = none ∨ (∃ m, g = some m ∧ lookupProd m p = none) ∨
        (∃ m, g = some m ∧ parseFloat q = none) ∨
        (∃ m sub qv, g = some m ∧ lookupProd m p = some sub ∧ parseFloat q = some qv ∧
          lookupKey sub (intToStr (truncRat qv)) = none)) →
      resolveGain g p q price s = some 0) := by
  refine ⟨?_, ?_, ?_, ?_⟩
  · intro v hne hpf
    simp only [resolveGain]
    rw [if_pos hne]
    exact hpf
  · intro hcl hpr
    simp [resolveGain, hcl, hpr]
  · intro m sub qv gv hcl hpr hgm hsub hq hk
    subst hgm
    have hm : m ≠ [] := by
      intro e
      subst e
      simp [lookupProd] at hsub
    simp [resolveGain, hcl, hpr, hm, hsub, hq, hk]
  · intro hcl hpr hcase
    rcases hcase with rfl | ⟨m, rfl, hnp⟩ | ⟨m, rfl, hq⟩ | ⟨m, sub, qv, rfl, hsub, hq, hk⟩
    · simp [resolveGain, hcl, hpr]
    · by_cases hm : m = []
      · subst hm
        simp [resolveGain, hcl, hpr]
      · simp [resolveGain, hcl, hpr, hm, hnp]
    · by_cases hm : m = []
      · subst hm
        simp [resolveGain, hcl, hpr]
      · rcases hsub : lookupProd m p with _ | sub
        · simp [resolveGain, hcl, hpr, hm, hsub]
        · simp [resolveGain, hcl, hpr, hm, hsub, hq]
    · have hm : m ≠ [] := by
        intro e
        subst e
        simp [lookupProd] at hsub
      simp [resolveGain, hcl, hpr, hm, hsub, hq, hk]

/-- C2 (amended): with at least 5 cells and at least 3 hyphen-separated
date parts, a conversion failure of the price residue, the year, or the
month skips the whole row, and a skipped row leaves the aggregation state
unchanged while processing continues with the rest; a non-numeric quantity
however does not skip the row: it is caught inside the lookup and yields
gain 0 (see the counterexample). -/
theorem C2_row_skip_policy (g : Option GainsTable) (row : List (List Char)) :
    (¬ row.length < 5 → stripNonNumeric (row.getD 2 []) ≠ [] →
      parseFloat (stripNonNumeric (row.getD 2 [])) = none → processRow g row = none) ∧
    (¬ row.length < 5 → ¬ (splitChar '-' (row.getD 3 [])).length < 3 →
      parseInt ((splitChar '-' (row.getD 3 [])).getD 0 []) = none →
      processRow g row = none) ∧
    (¬ row.length < 5 → ¬ (splitChar '-' (row.getD 3 [])).length < 3 →
      parseInt ((splitChar '-' (row.getD 3 [])).getD 1 []) = none →
      processRow g row = none) ∧
    (∀ p q price s, stripNonNumeric s = [] → price ≠ 0 → parseFloat q = none →
      resolveGain g p q price s = some 0) ∧
    (∀ (s : MonthMap × MonthMap) (rest : List (List (List Char))),
      processRow g row = none →
      (row :: rest).foldl (stepRow g) s = rest.foldl (stepRow g) s) := by
  refine ⟨?_, ?_, ?_, ?_, ?_⟩
  · intro h5 hne hpf
    simp only [processRow]
    rw [if_neg h5, if_neg hne, hpf]
  · intro h5 h3 hy
    simp only [processRow]
    rw [if_neg h5]
    split
    · rfl
    · rw [if_neg h3, hy]
  · intro h5 h3 hm
    simp only [processRow]
    rw [if_neg h5]
    split
    · rfl
    · rw [if_neg h3]
      split
      · rfl
      · rw [hm]
  · intro p q price s hcl hpr hq
    simp only [resolveGain]
    rw [if_neg (by simp [hcl])]
    rw [if_neg hpr]
    cases g with
    | none => rfl
    | some m =>
      by_cases hm : m = []
      · simp [hm]
      · rcases hsub : lookupProd m p with _ | sub
        · simp [hm, hsub]
        · simp [hm, hsub, hq]
  · intro s rest hnone
    simp only [List.foldl_cons, stepRow, hnone]

/-- C2 (counterexample): a row with the non-numeric quantity abc, enough
cells and a valid date is not skipped: the quantity conversion failure is
caught inside the table lookup, the gain falls back to 0, and the price 10
still accrues to the month 2024-01. -/
theorem C2_counterexample :
    processRow (some [(chars "Bolsa A", [(chars "2", (9 : ℚ))])])
        [chars "Bolsa A", chars "abc", chars "10", chars "2024-01-05", chars ""]
      = some (chars "2024-01", 10, 0) ∧
    parseFloat (cleanQuantity (chars "abc")) = none ∧
    stepRow (some [(chars "Bolsa A", [(chars "2", (9 : ℚ))])]) ([], [])
        [chars "Bolsa A", chars "abc", chars "10", chars "2024-01-05", chars ""]
      = ([(chars "2024-01", 10)], [(chars "2024-01", 0)]) := by decide

/-- C8: a missing gains file reports the failure and yields the absence
sentinel rather than a partial table; a missing transaction file reports
the failure, produces no report, and no exception escapes the call. -/
theorem C8_missing_files :
    parseGainsList none = none ∧
    ∀ g : Option GainsTable, analyzeSales none g = .fileNotFound ∧
      (analyzeSales none g).escapes = false :=
  ⟨rfl, fun _ => ⟨rfl, rfl⟩⟩

/-- C4 (counterexample): an existing but empty transaction file makes
next() on the csv reader raise StopIteration, which no handler catches, so
it escapes the entry point; likewise a row whose date month is 13 makes
the report loop raise IndexError on the month-name table. -/
theorem C4_counterexample :
    analyzeSales (some []) none = .headerError ∧
    AnalyzeResult.escapes .headerError = true ∧
    analyzeSales (some [[chars "header"],
        [chars "P", chars "1", chars "10", chars "2024-13-01", chars "5"]]) none
      = .reportError ∧
    AnalyzeResult.escapes .reportError = true := by decide

/-! Machinery for the additivity of the grand totals (C6): the keys of the
two monthly maps, permutation of the sorted keys, and sums over
association lists. -/

lemma keys_addToMap (m : MonthMap) (k : List Char) (v : ℚ) :
    (addToMap m k v).map Prod.fst =
      if k ∈ m.map Prod.fst then m.map Prod.fst else m.map Prod.fst ++ [k] := by
  induction m with
  | nil => simp [addToMap]
  | cons e rest ih =>
    obtain ⟨k1, v1⟩ := e
    simp only [addToMap]
    by_cases h1 : k1 = k
    · subst h1
      simp
    · rw [if_neg h1]
      simp only [List.map_cons, ih]
      by_cases h2 : k ∈ rest.map Prod.fst
      · rw [if_pos h2, if_pos (List.mem_cons_of_mem _ h2)]
      · rw [if_neg h2, if_neg ?_]
        · simp
        · intro hmem
          rcases List.mem_cons.mp hmem with h3 | h3
          · exact h1 h3.symm
          · exact h2 h3

lemma nodup_keys_addToMap {m : MonthMap} (h : (m.map Prod.fst).Nodup)
    (k : List Char) (v : ℚ) : ((addToMap m k v).map Prod.fst).Nodup := by
  rw [keys_addToMap]
  split
  · exact h
  · rename_i hnm
    rw [List.nodup_append]
    exact ⟨h, List.nodup_singleton k, by simpa using hnm⟩

lemma stepRow_keys_eq {g : Option GainsTable} {s : MonthMap × MonthMap}
    {row : List (List Char)} (h : s.1.map Prod.fst = s.2.map Prod.fst) :
    (stepRow g s row).1.map Prod.fst = (stepRow g s row).2.map Prod.fst := by
  unfold stepRow
  split
  · exact h
  · simp only [keys_addToMap, h]

lemma stepRow_keys_nodup {g : Option GainsTable} {s : MonthMap × MonthMap}
    {row : List (List Char)} (h : (s.1.map Prod.fst).Nodup) :
    ((stepRow g s row).1.map Prod.fst).Nodup := by
  unfold stepRow
  split
  · exact h
  · exact nodup_keys_addToMap h _ _

lemma aggregate_invariants (g : Option GainsTable) (rows : List (List (List Char))) :
    ∀ s : MonthMap × MonthMap,
      s.1.map Prod.fst = s.2.map Prod.fst → (s.1.map Prod.fst).Nodup →
      ((rows.foldl (stepRow g) s).1.map Prod.fst
          = (rows.foldl (stepRow g) s).2.map Prod.fst ∧
        ((rows.foldl (stepRow g) s).1.map Prod.fst).Nodup) := by
  induction rows with
  | nil => exact fun s h1 h2 => ⟨h1, h2⟩
  | cons r rest ih =>
    intro s h1 h2
    simp only [List.foldl_cons]
    exact ih _ (stepRow_keys_eq h1) (stepRow_keys_nodup h2)

lemma sum_map_lookupD {m : MonthMap} (h : (m.map Prod.fst).Nodup) :
    ((m.map Prod.fst).map (lookupD m)).sum = (m.map Prod.snd).sum := by
  induction m with
  | nil => simp
  | cons e rest ih =>
    obtain ⟨k1, v1⟩ := e
    simp only [List.map_cons] at h
    rw [List.nodup_cons] at h
    simp only [List.map_cons, List.sum_cons]
    have hhead : lookupD ((k1, v1) :: rest) k1 = v1 := by
      simp [lookupD]
    have hmap : (rest.map Prod.fst).map (lookupD ((k1, v1) :: rest))
        = (rest.map Prod.fst).map (lookupD rest) := by
      apply List.map_congr_left
      intro a ha
      have hne : k1 ≠ a := fun e => h.1 (e ▸ ha)
      simp [lookupD, hne]
    rw [hhead, hmap, ih h.2]

lemma reportLoop_totals {P E : MonthMap} : ∀ {ks : List (List Char)}
    {L : List MonthLine} {tp tg : ℚ},
    reportLoop P E ks = some (L, tp, tg) →
    tp = (ks.map (lookupD P)).sum ∧ tg = (ks.map (lookupD E)).sum := by
  intro ks
  induction ks with
  | nil =>
    intro L tp tg h
    cases h
    simp
  | cons k rest ih =>
    intro L tp tg h
    simp only [reportLoop] at h
    split at h
    · cases h
    · split at h
      · cases h
      · rename_i line hline trip htrip
        cases h
        obtain ⟨h1, h2⟩ := ih htrip
        simp [h1, h2]

/-- C6: the grand totals returned by the report are exactly the sum over
all month keys of the monthly totals, for both prices and gains. -/
theorem C6_grand_totals (hdr : List (List Char)) (rows : List (List (List Char)))
    (g : Option GainsTable) (L : List MonthLine) (tp tg : ℚ)
    (h : analyzeSales (some (hdr :: rows)) g = .ok L tp tg) :
    tp = ((aggregate g rows).1.map Prod.snd).sum ∧
    tg = ((aggregate g rows).2.map Prod.snd).sum := by
  obtain ⟨hkeq0, hnd0⟩ := aggregate_invariants g rows ([], []) rfl (by simp)
  have hkeq : (aggregate g rows).1.map Prod.fst = (aggregate g rows).2.map Prod.fst := hkeq0
  have hnd : ((aggregate g rows).1.map Prod.fst).Nodup := hnd0
  simp only [analyzeSales] at h
  split at h
  · cases h
  · rename_i trip htrip
    cases h
    obtain ⟨h1, h2⟩ := reportLoop_totals htrip
    have hperm := List.perm_insertionSort keyLt ((aggregate g rows).1.map Prod.fst)
    constructor
    · rw [h1, (hperm.map (lookupD (aggregate g rows).1)).sum_eq, sum_map_lookupD hnd]
    · rw [h2, (hperm.map (lookupD (aggregate g rows).2)).sum_eq, hkeq,
        sum_map_lookupD (hkeq ▸ hnd)]

/-- Witness for C6 on a one-row run: the reported totals equal the sums of
the monthly entries. -/
theorem C6_witness :
    ((10 : ℚ) + 0 = ((aggregate none
        [[chars "P", chars "1", chars "10", chars "2024-01-05", chars "4"]]).1.map
          Prod.snd).sum) ∧
    ((4 : ℚ) + 0 = ((aggregate none
        [[chars "P", chars "1", chars "10", chars "2024-01-05", chars "4"]]).2.map
          Prod.snd).sum) :=
  C6_grand_totals [chars "header"]
    [[chars "P", chars "1", chars "10", chars "2024-01-05", chars "4"]] none
    [⟨chars "2024", chars "Enero", 10, 4⟩] (10 + 0) (4 + 0) rfl

/-! Machinery for the no-escape property (C4): which month keys render
without an IndexError or ValueError in the report loop. -/

/-- Whether a month key renders safely: splitting on the hyphen gives
exactly two parts, the month part converts with int(), and the resulting
index into the 12-entry month-name table is in range (Python indexing
accepts -12 to 11, so months -11 to 12 here). -/
def monthKeyOk (k : List Char) : Bool :=
  match splitChar '-' k with
  | [_, ms] =>
    match parseInt ms with
    | some m => decide (-11 ≤ m ∧ m ≤ 12)
    | none => false
  | _ => false

/-- Whether a row is harmless for the report loop: either it is skipped,
or the month key it contributes renders safely. -/
def rowMonthOk (g : Option GainsTable) (row : List (List Char)) : Bool :=
  match processRow g row with
  | some (k, _, _) => monthKeyOk k
  | none => true

lemma pyIndex_meses_isSome (m : Int) (h1 : -11 ≤ m) (h2 : m ≤ 12) :
    ∃ name, pyIndex meses (m - 1) = some name := by
  interval_cases m <;> exact ⟨_, rfl⟩

lemma renderLine_of_monthKeyOk (P E : MonthMap) (k : List Char)
    (h : monthKeyOk k = true) : (renderLine P E k).isSome = true := by
  simp only [monthKeyOk] at h
  split at h
  · rename_i y ms heq
    split at h
    · rename_i m hm
      obtain ⟨hb1, hb2⟩ := of_decide_eq_true h
      obtain ⟨name, hname⟩ := pyIndex_meses_isSome m hb1 hb2
      simp [renderLine, heq, hm, hname]
    · cases h
  · cases h

lemma reportLoop_isSome (P E : MonthMap) : ∀ ks : List (List Char),
    (∀ k ∈ ks, monthKeyOk k = true) →
    ∃ out, reportLoop P E ks = some out := by
  intro ks
  induction ks with
  | nil => exact fun _ => ⟨([], 0, 0), rfl⟩
  | cons k rest ih =>
    intro hall
    obtain ⟨line, hline⟩ := Option.isSome_iff_exists.mp
      (renderLine_of_monthKeyOk P E k (hall k (List.mem_cons_self _ _)))
    obtain ⟨out, hout⟩ := ih (fun a ha => hall a (List.mem_cons_of_mem _ ha))
    obtain ⟨ls, tp, tg⟩ := out
    exact ⟨(line :: ls, lookupD P k + tp, lookupD E k + tg),
      by simp [reportLoop, hline, hout]⟩

lemma mem_keys_addToMap {m : MonthMap} {k0 k : List Char} {v : ℚ}
    (h : k ∈ (addToMap m k0 v).map Prod.fst) : k ∈ m.map Prod.fst ∨ k = k0 := by
  rw [keys_addToMap] at h
  split at h
  · exact Or.inl h
  · rcases List.mem_append.mp h with h | h
    · exact Or.inl h
    · simp at h
      exact Or.inr h

lemma aggregate_keys_sourced (g : Option GainsTable) :
    ∀ (rows : List (List (List Char))) (s : MonthMap × MonthMap) (k : List Char),
      k ∈ (rows.foldl (stepRow g) s).1.map Prod.fst →
      k ∈ s.1.map Prod.fst ∨ ∃ r ∈ rows, ∃ p gn, processRow g r = some (k, p, gn) := by
  intro rows
  induction rows with
  | nil => exact fun s k h => Or.inl h
  | cons r rest ih =>
    intro s k h
    simp only [List.foldl_cons] at h
    rcases ih _ k h with h2 | ⟨r2, hr2, p, gn, hp⟩
    · rcases hpr : processRow g r with _ | ⟨k2, p2, gn2⟩
      · simp only [stepRow, hpr] at h2
        exact Or.inl h2
      · simp only [stepRow, hpr] at h2
        rcases mem_keys_addToMap h2 with h3 | h3
        · exact Or.inl h3
        · subst h3
          exact Or.inr ⟨r, List.mem_cons_self _ _, p2, gn2, hpr⟩
    · exact Or.inr ⟨r2, List.mem_cons_of_mem _ hr2, p, gn, hp⟩

/-- C4 (amended): no exception escapes the entry point provided the
transaction file, when present, still contains its header row and every
processed row contributes a month whose name-table index is in range; a
missing file is the caught clean abort.  Without those provisos the code
does escape: an empty file raises StopIteration and an out-of-range month
raises IndexError (see the counterexample). -/
theorem C4_no_escape (hdr : List (List Char)) (rows : List (List (List Char)))
    (g : Option GainsTable) (H : ∀ r ∈ rows, rowMonthOk g r = true) :
    ∃ L tp tg, analyzeSales (some (hdr :: rows)) g = .ok L tp tg ∧
      (analyzeSales (some (hdr :: rows)) g).escapes = false := by
  have hkeys : ∀ k ∈ List.insertionSort keyLt ((aggregate g rows).1.map Prod.fst),
      monthKeyOk k = true := by
    intro k hk
    rw [(List.perm_insertionSort keyLt _).mem_iff] at hk
    rcases aggregate_keys_sourced g rows ([], []) k hk with h | ⟨r, hr, p, gn, hp⟩
    · simp at h
    · have hro := H r hr
      simp only [rowMonthOk, hp] at hro
      exact hro
  obtain ⟨out, hout⟩ := reportLoop_isSome (aggregate g rows).1 (aggregate g rows).2 _ hkeys
  obtain ⟨ls, tp, tg⟩ := out
  refine ⟨ls, tp, tg, ?_, ?_⟩
  · simp [analyzeSales, hout]
  · simp [analyzeSales, hout, AnalyzeResult.escapes]

/-- Witness for C4 on a one-row file with its header: the run returns the
rendered report and no escaping exception. -/
theorem C4_witness :
    ∃ L tp tg, analyzeSales (some [[chars "header"],
        [chars "P", chars "1", chars "10", chars "2024-01-05", chars "4"]]) none
      = .ok L tp tg ∧
      (analyzeSales (some [[chars "header"],
        [chars "P", chars "1", chars "10", chars "2024-01-05", chars "4"]]) none).escapes
        = false :=
  C4_no_escape [chars "header"]
    [[chars "P", chars "1", chars "10", chars "2024-01-05", chars "4"]] none (by decide)

/-! Machinery for the quantity-key invariant (C9): the loader stores the
stripped quantity token verbatim, so every stored key is a trimmed string;
it is not validated as numeric. -/

lemma dropWhile_eq_self_of_head {p : Char → Bool} {l : List Char}
    (h : ∀ c, l.head? = some c → p c = false) : l.dropWhile p = l := by
  cases l with
  | nil => rfl
  | cons a t =>
    have := h a rfl
    simp [List.dropWhile_cons, this]

lemma head?_dropWhile {p : Char → Bool} : ∀ {l : List Char} {c : Char},
    (l.dropWhile p).head? = some c → p c = false := by
  intro l
  induction l with
  | nil =>
    intro c h
    cases h
  | cons a t ih =>
    intro c h
    by_cases hp : p a
    · rw [List.dropWhile_cons, if_pos hp] at h
      exact ih h
    · rw [List.dropWhile_cons, if_neg hp] at h
      cases h
      simpa using hp

lemma trim_head_not_ws {s : List Char} {c : Char} (h : (trim s).head? = some c) :
    isWs c = false := by
  unfold trim at h
  rw [List.head?_reverse] at h
  obtain ⟨t, ht⟩ :=
    (List.dropWhile_suffix isWs : _ <:+ (s.dropWhile isWs).reverse)
  have hwne : (s.dropWhile isWs).reverse.dropWhile isWs ≠ [] := by
    intro e
    rw [e] at h
    cases h
  have h2 : ((s.dropWhile isWs).reverse).getLast? = some c := by
    rw [← ht, List.getLast?_append_of_ne_nil t hwne]
    exact h
  rw [List.getLast?_reverse] at h2
  exact head?_dropWhile h2

lemma trim_reverse_head_not_ws {s : List Char} {c : Char}
    (h : (trim s).reverse.head? = some c) : isWs c = false := by
  unfold trim at h
  rw [List.reverse_reverse] at h
  exact head?_dropWhile h

lemma trim_idem (s : List Char) : trim (trim s) = trim s := by
  show (((trim s).dropWhile isWs).reverse.dropWhile isWs).reverse = trim s
  rw [dropWhile_eq_self_of_head (fun c hc => trim_head_not_ws hc)]
  rw [dropWhile_eq_self_of_head (fun c hc => trim_reverse_head_not_ws hc)]
  exact List.reverse_reverse _

lemma mem_setKey : ∀ {sub : List (List Char × ℚ)} {q k : List Char} {w v : ℚ},
    (k, v) ∈ setKey sub q w → (k, v) ∈ sub ∨ k = q := by
  intro sub
  induction sub with
  | nil =>
    intro q k w v h
    simp only [setKey, List.mem_singleton, Prod.mk.injEq] at h
    exact Or.inr h.1
  | cons e rest ih =>
    intro q k w v h
    obtain ⟨k0, v0⟩ := e
    simp only [setKey] at h
    split at h
    · rename_i heq
      rcases List.mem_cons.mp h with h1 | h1
      · obtain ⟨h1a, _⟩ := Prod.mk.injEq .. |>.mp h1
        exact Or.inr (h1a.trans heq)
      · exact Or.inl (List.mem_cons_of_mem _ h1)
    · rcases List.mem_cons.mp h with h1 | h1
      · exact Or.inl (by rw [h1]; exact List.mem_cons_self _ _)
      · rcases ih h1 with h2 | h2
        · exact Or.inl (List.mem_cons_of_mem _ h2)
        · exact Or.inr h2

/-- Every quantity key reachable in the table is a trimmed string. -/
def keysTrimmed (m : GainsTable) : Prop :=
  ∀ p sub, (p, sub) ∈ m → ∀ k v, (k, v) ∈ sub → trim k = k

lemma keysTrimmed_setProdKey : ∀ {m : GainsTable} {p q : List Char} {w : ℚ},
    keysTrimmed m → trim q = q → keysTrimmed (setProdKey m p q w) := by
  intro m
  induction m with
  | nil =>
    intro p q w _ hq p2 sub2 hmem k v hkv
    simp only [setProdKey, List.mem_singleton, Prod.mk.injEq] at hmem
    rw [hmem.2] at hkv
    simp only [List.mem_singleton, Prod.mk.injEq] at hkv
    rw [hkv.1]
    exact hq
  | cons e rest ih =>
    intro p q w hm hq p2 sub2 hmem k v hkv
    obtain ⟨p0, sub0⟩ := e
    simp only [setProdKey] at hmem
    split at hmem
    · rcases List.mem_cons.mp hmem with h1 | h1
      · obtain ⟨_, h1b⟩ := Prod.mk.injEq .. |>.mp h1
        rcases mem_setKey (h1b ▸ hkv) with h2 | h2
        · exact hm p0 sub0 (List.mem_cons_self _ _) k v h2
        · rw [h2]
          exact hq
      · exact hm p2 sub2 (List.mem_cons_of_mem _ h1) k v hkv
    · rcases List.mem_cons.mp hmem with h1 | h1
      · exact hm p2 sub2 (by rw [h1]; exact List.mem_cons_self _ _) k v hkv
      · have hrest : keysTrimmed rest := fun a b hab => hm a b (List.mem_cons_of_mem _ hab)
        exact ih hrest hq p2 sub2 h1 k v hkv

lemma keysTrimmed_applyRule {m : GainsTable} {p rule : List Char}
    (hm : keysTrimmed m) : keysTrimmed (applyRule m p rule) := by
  unfold applyRule
  split
  · split
    · split
      · exact keysTrimmed_setProdKey hm (trim_idem _)
      · exact hm
    · exact hm
  · exact hm

lemma keysTrimmed_foldRules (p : List Char) : ∀ (rules : List (List Char)) (m : GainsTable),
    keysTrimmed m →
    keysTrimmed (rules.foldl (fun acc rule => applyRule acc p rule) m) := by
  intro rules
  induction rules with
  | nil => exact fun m hm => hm
  | cons r rest ih => exact fun m hm => ih _ (keysTrimmed_applyRule hm)

lemma keysTrimmed_parseGainsLine {m : GainsTable} {line : List Char}
    (hm : keysTrimmed m) : keysTrimmed (parseGainsLine m line) := by
  simp only [parseGainsLine]
  split
  · exact hm
  · split
    · split
      · exact keysTrimmed_foldRules _ _ _ hm
      · exact hm
    · exact hm

lemma keysTrimmed_foldLines : ∀ (lines : List (List Char)) (m : GainsTable),
    keysTrimmed m → keysTrimmed (lines.foldl parseGainsLine m) := by
  intro lines
  induction lines with
  | nil => exact fun m hm => hm
  | cons l rest ih => exact fun m hm => ih _ (keysTrimmed_parseGainsLine hm)

/-- C9 (amended): every quantity key stored by the loader is exactly the
whitespace-stripped quantity token of its rule, hence a trimmed string; it
is not validated as numeric, so it need not denote a non-negative integer
(see the counterexample). -/
theorem C9_keys_trimmed (lines : List (List Char)) (p : List Char)
    (sub : List (List Char × ℚ)) (k : List Char) (v : ℚ)
    (hp : lookupProd (parseGainsLines lines) p = some sub)
    (hk : (k, v) ∈ sub) : trim k = k :=
  keysTrimmed_foldLines lines [] (fun a b hab => by cases hab) p sub
    (lookupProd_mem hp) k v hk

/-- Witness for C9: on the one-line file Bolsa A followed by the rule 1:5,
the stored key 1 is its own trim. -/
theorem C9_witness : trim (chars "1") = chars "1" :=
  C9_keys_trimmed [chars "Bolsa A  1:5"] (chars "Bolsa A")
    [(chars "1", (5 : ℚ))] (chars "1") 5 (by decide) (by decide)

lemma digitChar_isDigit : ∀ d : Nat, d < 10 → (Char.ofNat (48 + d)).isDigit = true := by
  decide

lemma natDecimalAux_digits : ∀ (fuel n : Nat), ∀ c ∈ natDecimalAux fuel n,
    c.isDigit = true := by
  intro fuel
  induction fuel with
  | zero =>
    intro n c h
    cases h
  | succ f ih =>
    intro n c h
    simp only [natDecimalAux] at h
    split at h
    · rename_i hn
      simp only [List.mem_singleton] at h
      rw [h]
      exact digitChar_isDigit n hn
    · rcases List.mem_append.mp h with h | h
      · exact ih _ c h
      · simp only [List.mem_singleton] at h
        rw [h]
        exact digitChar_isDigit _ (Nat.mod_lt _ (by omega))

lemma natDecimal_digits (n : Nat) : ∀ c ∈ natDecimal n, c.isDigit = true :=
  fun c hc => natDecimalAux_digits (n + 1) n c hc

/-- C9 (counterexample): the loader stores the non-numeric quantity token
foo verbatim, and foo is not the string form of any non-negative integer
(nor of any integer), since rendered integers consist of digits with at
most a leading minus sign. -/
theorem C9_counterexample :
    parseGainsLines [chars "Bolsa A  foo:5"]
      = [(chars "Bolsa A", [(chars "foo", (5 : ℚ))])] ∧
    (∀ n : Nat, natDecimal n ≠ chars "foo") ∧
    (∀ i : Int, intToStr i ≠ chars "foo") := by
  refine ⟨by decide, ?_, ?_⟩
  · intro n h
    have hf : ('f' : Char) ∈ natDecimal n := by
      rw [h]
      decide
    exact absurd (natDecimal_digits n 'f' hf) (by decide)
  · intro i h
    unfold intToStr at h
    split at h
    · have h0 := congrArg List.head? h
      rw [show (chars "foo").head? = some 'f' from rfl] at h0
      simp only [List.head?_cons, Option.some.injEq] at h0
      exact absurd h0 (by decide)
    · have hf : ('f' : Char) ∈ natDecimal i.toNat := by
        rw [h]
        decide
      exact absurd (natDecimal_digits _ 'f' hf) (by decide)

/-! Machinery for the ordering of month keys (C7): lexicographic
comparison of rendered keys versus chronological comparison of year and
month. -/

lemma digitChar_lt_iff : ∀ a : Nat, a < 10 → ∀ b : Nat, b < 10 →
    ((Char.ofNat (48 + a) < Char.ofNat (48 + b)) ↔ a < b) := by decide

lemma strLt_cons (a b : Char) (as bs : List Char) :
    strLt (a :: as) (b :: bs)
      = if a < b then true else if b < a then false else strLt as bs := rfl

lemma strLt_digit_cons {a b : Nat} (ha : a < 10) (hb : b < 10)
    (r1 r2 : List Char) :
    (strLt (Char.ofNat (48 + a) :: r1) (Char.ofNat (48 + b) :: r2) = true)
      ↔ (a < b ∨ (a = b ∧ strLt r1 r2 = true)) := by
  rw [strLt_cons]
  rcases Nat.lt_trichotomy a b with h | h | h
  · rw [if_pos ((digitChar_lt_iff a ha b hb).mpr h)]
    simp [h]
  · subst h
    rw [if_neg (by rw [digitChar_lt_iff a ha a hb]; omega)]
    rw [if_neg (by rw [digitChar_lt_iff a hb a ha]; omega)]
    simp
  · rw [if_neg (by rw [digitChar_lt_iff a ha b hb]; omega)]
    rw [if_pos ((digitChar_lt_iff b hb a ha).mpr h)]
    simp only [Bool.false_eq_true, false_iff]
    rintro (h2 | ⟨h2, _⟩) <;> omega

lemma strLt_cons_hyphen (r1 r2 : List Char) :
    (strLt ('-' :: r1) ('-' :: r2) = true) ↔ (strLt r1 r2 = true) := by
  rw [strLt_cons]
  rw [if_neg (by decide), if_neg (by decide)]

lemma natDecimalAux_fuel : ∀ (f1 n f2 : Nat), n < f1 → n < f2 →
    natDecimalAux f1 n = natDecimalAux f2 n := by
  intro f1
  induction f1 with
  | zero =>
    intro n f2 h1 h2
    omega
  | succ f ih =>
    intro n f2 h1 h2
    cases f2 with
    | zero => omega
    | succ f2 =>
      show (if n < 10 then [Char.ofNat (48 + n)]
          else natDecimalAux f (n / 10) ++ [Char.ofNat (48 + n % 10)])
        = (if n < 10 then [Char.ofNat (48 + n)]
          else natDecimalAux f2 (n / 10) ++ [Char.ofNat (48 + n % 10)])
      split
      · rfl
      · rw [ih (n / 10) f2 (by omega) (by omega)]

lemma natDecimal_lt10 (n : Nat) (h : n < 10) :
    natDecimal n = [Char.ofNat (48 + n)] := by
  show (if n < 10 then [Char.ofNat (48 + n)]
      else natDecimalAux n (n / 10) ++ [Char.ofNat (48 + n % 10)])
    = [Char.ofNat (48 + n)]
  rw [if_pos h]

lemma natDecimal_ge10 (n : Nat) (h : 10 ≤ n) :
    natDecimal n = natDecimal (n / 10) ++ [Char.ofNat (48 + n % 10)] := by
  show (if n < 10 then [Char.ofNat (48 + n)]
      else natDecimalAux n (n / 10) ++ [Char.ofNat (48 + n % 10)])
    = natDecimal (n / 10) ++ [Char.ofNat (48 + n % 10)]
  rw [if_neg (by omega)]
  unfold natDecimal
  rw [natDecimalAux_fuel n (n / 10) (n / 10 + 1) (by omega) (by omega)]

lemma natDecimal_four (n : Nat) (h1 : 1000 ≤ n) (h2 : n ≤ 9999) :
    natDecimal n = [Char.ofNat (48 + n / 1000), Char.ofNat (48 + n / 100 % 10),
      Char.ofNat (48 + n / 10 % 10), Char.ofNat (48 + n % 10)] := by
  rw [natDecimal_ge10 n (by omega), natDecimal_ge10 (n / 10) (by omega),
    natDecimal_ge10 (n / 10 / 10) (by omega), natDecimal_lt10 (n / 10 / 10 / 10) (by omega)]
  have e1 : n / 10 / 10 = n / 100 := by omega
  have e2 : n / 10 / 10 / 10 = n / 1000 := by omega
  rw [e1] at *
  simp [e1, e2]

lemma pad2_digits (m : Int) (h1 : 1 ≤ m) (h2 : m ≤ 12) :
    pad2 m = [Char.ofNat (48 + m.toNat / 10), Char.ofNat (48 + m.toNat % 10)] := by
  interval_cases m <;> decide

lemma intToStr_nonneg (y : Int) (h : 0 ≤ y) : intToStr y = natDecimal y.toNat := by
  unfold intToStr
  rw [if_neg (by omega)]

/-- C7 (amended): the lexicographic order on rendered month keys agrees
with the chronological order of (year, month) whenever both years render
with four digits; and the out-of-order input months 2023-12, 2024-01,
2024-02 aggregate to month keys sorted in exactly that chronological
order. -/
theorem C7_lex_chronological (y1 m1 y2 m2 : Int)
    (hy1 : 1000 ≤ y1) (hy1b : y1 ≤ 9999) (hy2 : 1000 ≤ y2) (hy2b : y2 ≤ 9999)
    (hm1 : 1 ≤ m1) (hm1b : m1 ≤ 12) (hm2 : 1 ≤ m2) (hm2b : m2 ≤ 12) :
    (keyLt (monthKeyOf y1 m1) (monthKeyOf y2 m2)
      ↔ (y1 < y2 ∨ (y1 = y2 ∧ m1 < m2))) ∧
    List.insertionSort keyLt ((aggregate none [
        [chars "P", chars "1", chars "30", chars "2024-02-05", chars "3"],
        [chars "P", chars "1", chars "10", chars "2023-12-05", chars "1"],
        [chars "P", chars "1", chars "20", chars "2024-01-05", chars "2"]]).1.map
          Prod.fst)
      = [chars "2023-12", chars "2024-01", chars "2024-02"] := by
  constructor
  · unfold keyLt monthKeyOf
    rw [intToStr_nonneg y1 (by omega), intToStr_nonneg y2 (by omega),
      natDecimal_four y1.toNat (by omega) (by omega),
      natDecimal_four y2.toNat (by omega) (by omega),
      pad2_digits m1 hm1 hm1b, pad2_digits m2 hm2 hm2b]
    simp only [List.cons_append, List.nil_append]
    rw [strLt_digit_cons (by omega) (by omega),
      strLt_digit_cons (by omega) (by omega),
      strLt_digit_cons (by omega) (by omega),
      strLt_digit_cons (by omega) (by omega),
      strLt_cons_hyphen,
      strLt_digit_cons (by omega) (by omega),
      strLt_digit_cons (by omega) (by omega)]
    simp only [strLt, Bool.false_eq_true, and_false, or_false]
    omega
  · decide

/-- Witness for C7 at the concrete boundary 2023-12 versus 2024-01: the
key comparison agrees with chronology, and the sorted keys of the
out-of-order input are chronological. -/
theorem C7_witness :
    (keyLt (monthKeyOf 2023 12) (monthKeyOf 2024 1)
      ↔ ((2023 : Int) < 2024 ∨ ((2023 : Int) = 2024 ∧ (12 : Int) < 1))) ∧
    List.insertionSort keyLt ((aggregate none [
        [chars "P", chars "1", chars "30", chars "2024-02-05", chars "3"],
        [chars "P", chars "1", chars "10", chars "2023-12-05", chars "1"],
        [chars "P", chars "1", chars "20", chars "2024-01-05", chars "2"]]).1.map
          Prod.fst)
      = [chars "2023-12", chars "2024-01", chars "2024-02"] :=
  C7_lex_chronological 2023 12 2024 1 (by omega) (by omega) (by omega) (by omega)
    (by omega) (by omega) (by omega) (by omega)

/-- C7 (counterexample): with a three-digit year the zero-padded-month key
format is not chronological under lexicographic order: January 1000 sorts
and renders before December 999. -/
theorem C7_counterexample :
    keyLt (monthKeyOf 1000 1) (monthKeyOf 999 12) ∧
    (999 : Int) < 1000 ∧
    List.insertionSort keyLt ((aggregate none [
        [chars "P", chars "1", chars "10", chars "999-12-01", chars "2"],
        [chars "P", chars "1", chars "20", chars "1000-01-01", chars "3"]]).1.map
          Prod.fst)
      = [chars "1000-01", chars "999-12"] := by decide
